import Mathlib

/-!
Verification development for the planning/selection/aggregation core of a
multi-source question-answering agent.

The embedding models Python strings as `List Char` and re-implements, with
structural (fuel-based) recursion so that everything kernel-reduces, the
exact string primitives the code relies on: `str.split(sep)`,
`str.replace(old, new)`, `str.strip()` and `str.splitlines()`.

Components embedded from the source:
  * `parse_response`       — Controller.parse_response (controller.py)
  * `controllerExecutePlan`/`controllerExecute` — Controller._execute (controller.py)
  * `build_chat_history`   — Controller.build_chat_history (controller.py)
  * `evaluatorExecute`     — Evaluator.execute (evaluator.py)
Score values are modelled as rationals (`ℚ`); the code only compares
scores, so exact rational arithmetic is a faithful model of the float use.
-/

/-- Python strings are modelled as lists of characters. -/
abbrev Str := List Char

/-- Boolean test that `p` is a prefix of `s` (used by the fuel-based scanners). -/
def isPrefixL : Str → Str → Bool
  | [], _ => true
  | _ :: _, [] => false
  | a :: p, b :: s => a == b && isPrefixL p s

/-- Boolean test that `pat` occurs as a contiguous substring of `s`
(Python `pat in s`). Scans every suffix for a prefix match. -/
def containsL (pat : Str) : Str → Bool
  | [] => isPrefixL pat []
  | c :: rest => isPrefixL pat (c :: rest) || containsL pat rest

/-- Fuel-based scanner implementing Python `s.split(sep)` for a non-empty
separator: non-overlapping occurrences are found left to right; the text
between consecutive occurrences (and before the first / after the last)
becomes one output segment. `acc` holds the current segment reversed.
The fuel never runs out when started at `s.length` since every step
consumes at least one character. -/
def splitOnFuel (sep : Str) : Nat → Str → Str → List Str
  | _, [], acc => [acc.reverse]
  | Nat.succ fuel, c :: rest, acc =>
    if isPrefixL sep (c :: rest) && !sep.isEmpty then
      acc.reverse :: splitOnFuel sep fuel (rest.drop (sep.length - 1)) []
    else
      splitOnFuel sep fuel rest (c :: acc)
  | 0, s, acc => [acc.reverse ++ s]

/-- Python `s.split(sep)` for a non-empty separator. -/
def splitOnL (sep s : Str) : List Str := splitOnFuel sep s.length s []

/-- Fuel-based scanner implementing Python `s.replace(pat, rep)` for a
non-empty pattern: non-overlapping occurrences are replaced left to right,
without rescanning the replacement text. -/
def replaceFuel (pat rep : Str) : Nat → Str → Str
  | _, [] => []
  | Nat.succ fuel, c :: rest =>
    if isPrefixL pat (c :: rest) && !pat.isEmpty then
      rep ++ replaceFuel pat rep fuel (rest.drop (pat.length - 1))
    else
      c :: replaceFuel pat rep fuel rest
  | 0, s => s

/-- Python `s.replace(pat, rep)` for a non-empty pattern. -/
def replaceL (pat rep s : Str) : Str := replaceFuel pat rep s.length s

/-- Python `s.strip()`: remove leading and trailing whitespace. -/
def stripL (s : Str) : Str :=
  ((s.dropWhile Char.isWhitespace).reverse.dropWhile Char.isWhitespace).reverse

/-- Python `s.splitlines()` restricted to the newline character `\n`:
split on `'\n'`, except that a trailing newline does not produce a final
empty segment and the empty string yields no lines at all. -/
def splitlinesL (s : Str) : List Str :=
  match s with
  | [] => []
  | _ :: _ =>
    let parts := splitOnL ['\n'] s
    if parts.getLast? = some [] then parts.dropLast else parts

/-- Kinds of chat messages in the agent framework. -/
inductive ChatMessageKind where
  | user
  | agent
  | chain
  | skill
deriving DecidableEq, Repr

/-- A chat message: kind, text, originating source id, and error flag. -/
structure ChatMessage where
  kind : ChatMessageKind
  message : Str
  source : Str
  isError : Bool
deriving DecidableEq, Repr

/-- ChatMessage.chain constructor: a Chain-kind message holding the given text. -/
def ChatMessage.chainMsg (text : Str) : ChatMessage :=
  ⟨ChatMessageKind.chain, text, [], false⟩

/-- A registered source (council `Chain` descriptor): name and description. -/
structure Chain where
  name : Str
  description : Str
deriving DecidableEq, Repr

/-- An entry of the execution plan: the selected chain, the shared budget,
and the initial state (a Chain-kind message carrying the reformulated query). -/
structure ExecutionUnit where
  chain : Chain
  budget : Nat
  initialState : ChatMessage
deriving DecidableEq, Repr

/-- A chat message paired with a score. -/
structure ScoredChatMessage where
  message : ChatMessage
  score : ℚ
deriving DecidableEq, Repr

/-- Controller.parse_response (controller.py): split the completion on the
literal `"---"`; segment 0 with the `"Subtask 1:"` labels removed and
stripped is the reformulated query, segment 1 with the `"Subtask 2:"`
labels removed and stripped is the chain-selection text. Python indexes
`split("---")[1]`, which raises `IndexError` when the delimiter is absent;
that uncaught exception is modelled by `none`. -/
def parse_response (response : Str) : Option (Str × Str) :=
  match splitOnL "---".toList response with
  | seg0 :: seg1 :: _ =>
    some
      (stripL (replaceL "Subtask 1: ".toList [] (replaceL "Subtask 1:".toList [] seg0)),
       stripL (replaceL "Subtask 2: ".toList [] (replaceL "Subtask 2:".toList [] seg1)))
  | _ => none

/-- Digit-string test: non-empty and all characters decimal digits. -/
def isDigitStr (s : Str) : Bool := !s.isEmpty && s.all Char.isDigit

/-- Numeric value of a decimal digit string. -/
def natOfDigits (s : Str) : Nat := s.foldl (fun n c => n * 10 + (c.toNat - '0'.toNat)) 0

/-- Modelled from the spec: the numeric parse of a score field (the code's
`float(...)` call lives in the council library, outside this repository).
Accepts an optionally signed decimal literal with an optional fractional
part, surrounded by whitespace; anything else fails. -/
def parseFloat (s : Str) : Option ℚ :=
  let t := stripL s
  let signed : Int × Str :=
    match t with
    | '-' :: r => (-1, r)
    | '+' :: r => (1, r)
    | _ => (1, t)
  match splitOnL ['.'] signed.2 with
  | [a] => if isDigitStr a then some (mkRat (signed.1 * natOfDigits a) 1) else none
  | [a, b] =>
    if (isDigitStr a || a.isEmpty) && (isDigitStr b || b.isEmpty) && !(a.isEmpty && b.isEmpty) then
      some (mkRat (signed.1 * (natOfDigits a * 10 ^ b.length + natOfDigits b)) (10 ^ b.length))
    else none
  | _ => none

/-- Modelled from the spec: LLMController._parse_line (council library,
outside this repository; only its caller Controller._execute is in the
source). A line equal to the literal `"unknown"` produces nothing;
otherwise the line is split on `';'` and needs at least two fields: the
name (whitespace-trimmed) and the score; a score that fails the numeric
parse produces nothing; a name matching no registered chain produces
nothing; extra fields (justification) are ignored. -/
def parse_line (line : Str) (chains : List Chain) : Option (Chain × ℚ) :=
  if line = "unknown".toList then none
  else
    match splitOnL [';'] line with
    | nameField :: scoreField :: _ =>
      match parseFloat scoreField with
      | some sc =>
        match chains.find? (fun c => c.name = stripL nameField) with
        | some c => some (c, sc)
        | none => none
      | none => none
    | _ => none

/-- The parse of every line of the chain-selection text
(controller.py, `parsed = [self._parse_line(line, self._chains) for line in
chain_selection_result.splitlines()]`). -/
def parsedLines (chains : List Chain) (chainSel : Str) : List (Option (Chain × ℚ)) :=
  (splitlinesL chainSel).map (fun line => parse_line line chains)

/-- The threshold filter of Controller._execute (controller.py):
`[r.unwrap() for r in parsed if r.is_some() and r.unwrap()[1] > self._response_threshold]`.
Strict comparison: a score equal to the threshold is dropped. -/
def filteredEntries (chains : List Chain) (threshold : ℚ) (chainSel : Str) :
    List (Chain × ℚ) :=
  (parsedLines chains chainSel).filterMap (fun r =>
    match r with
    | some p => if threshold < p.2 then some p else none
    | none => none)

/-- Stable descending insertion: place `a` immediately before the first
element whose score is less than or equal to `a`'s. -/
def insertDesc (a : Chain × ℚ) : List (Chain × ℚ) → List (Chain × ℚ)
  | [] => [a]
  | b :: l => if b.2 ≤ a.2 then a :: b :: l else b :: insertDesc a l

/-- Stable descending sort by score, modelling
`filtered.sort(key=lambda item: item[1], reverse=True)` (controller.py).
Python's sort is stable and compares only the score key; a stable
descending sort is uniquely determined by those two facts, and this
insertion sort is one (stability and sortedness are proved below). -/
def sortDesc : List (Chain × ℚ) → List (Chain × ℚ)
  | [] => []
  | a :: l => insertDesc a (sortDesc l)

/-- The execution unit built for a surviving entry (controller.py):
`ExecutionUnit(r[0], context.budget, initial_state=ChatMessage.chain(query_reformulation_result))`. -/
def mkUnit (budget : Nat) (queryRef : Str) (r : Chain × ℚ) : ExecutionUnit :=
  ⟨r.1, budget, ChatMessage.chainMsg queryRef⟩

/-- The plan-construction tail of Controller._execute (controller.py):
parse each selection line, keep entries with score strictly above the
threshold, return the empty plan if none survive, otherwise sort by score
descending (stable), build one ExecutionUnit per entry (the comprehension's
`if r is not None` guard never fires, entries being tuples) and truncate to
the first `top_k`. -/
def controllerExecutePlan (chains : List Chain) (threshold : ℚ) (topK budget : Nat)
    (chainSel queryRef : Str) : List ExecutionUnit :=
  let filtered := filteredEntries chains threshold chainSel
  if filtered.isEmpty then []
  else ((sortDesc filtered).map (mkUnit budget queryRef)).take topK

/-- Controller._execute (controller.py), from the model completion onward:
parse_response may fail (uncaught IndexError, modelled by `none`); on
success the plan is built from the two segments. -/
def controllerExecute (chains : List Chain) (threshold : ℚ) (topK budget : Nat)
    (response : Str) : Option (List ExecutionUnit) :=
  match parse_response response with
  | none => none
  | some (q, cs) => some (controllerExecutePlan chains threshold topK budget cs q)

/-- One entry of a chain's execution history (council `ChainHistory`):
the messages produced by that run. -/
structure ChainHistoryEntry where
  messages : List ChatMessage
deriving DecidableEq, Repr

/-- The execution outcome map consumed by the evaluator: each registered
source name mapped to its sequence of history entries, in iteration order. -/
abbrev OutcomeMap := List (Str × List ChainHistoryEntry)

/-- Evaluator.execute (evaluator.py): for every chain in the outcome map,
take `chain_history[-1].messages[-1]` — the last message of the last
history entry — and keep it when it is skill-kind and not an error,
wrapping it as a score-1.0 agent message carrying the chain name as its
source. Python's `[-1]` indexing raises `IndexError` on an empty sequence
and the method has no handler, so a single empty history aborts the whole
call; that is modelled by `none`. -/
def evaluatorExecute : OutcomeMap → Option (List ScoredChatMessage)
  | [] => some []
  | (chainName, chainHistory) :: rest =>
    match chainHistory.getLast? with
    | none => none
    | some entry =>
      match entry.messages.getLast? with
      | none => none
      | some chainResult =>
        match evaluatorExecute rest with
        | none => none
        | some tail =>
          if chainResult.kind = ChatMessageKind.skill ∧ chainResult.isError = false then
            some (⟨⟨ChatMessageKind.agent, chainResult.message, chainName,
                    chainResult.isError⟩, 1⟩ :: tail)
          else some tail

/-- Spec-shaped collector: one pass over the outcome map keeping, for each
source, its last history message exactly when that message is skill-kind
and not an error, wrapped as a score-1.0 agent message attributed to the
source. Used to characterise `evaluatorExecute` on success. -/
def collectedOutcomes (m : OutcomeMap) : List ScoredChatMessage :=
  m.filterMap (fun e =>
    match e.2.getLast? with
    | none => none
    | some entry =>
      match entry.messages.getLast? with
      | none => none
      | some msg =>
        if msg.kind = ChatMessageKind.skill ∧ msg.isError = false then
          some ⟨⟨ChatMessageKind.agent, msg.message, e.1, msg.isError⟩, 1⟩
        else none)

/-- Controller.build_chat_history (controller.py): drop the most recent
message (the current query); if nothing remains, return the literal
`"No conversational history"`; otherwise fold over the last
`maxHistoryLen` remaining messages appending `"User: …"` lines for
User-kind and `"Assistant: …"` lines for Agent-kind messages, skipping
every other kind. The fold body encodes Python's two consecutive `if`
statements (the kinds are mutually exclusive, so at most one fires).
Python's `[-k:]` slice takes the whole list when `k = 0`, hence the
guard. -/
def build_chat_history (messages : List ChatMessage) (maxHistoryLen : Nat) : Str :=
  let messageHistory := messages.dropLast
  if messageHistory.length < 1 then "No conversational history".toList
  else
    let recent :=
      if maxHistoryLen = 0 then messageHistory
      else messageHistory.drop (messageHistory.length - maxHistoryLen)
    recent.foldl
      (fun acc msg =>
        if msg.kind = ChatMessageKind.agent then
          (if msg.kind = ChatMessageKind.user then
            acc ++ "User: ".toList ++ msg.message ++ ['\n']
          else acc) ++ "Assistant: ".toList ++ msg.message ++ ['\n']
        else
          (if msg.kind = ChatMessageKind.user then
            acc ++ "User: ".toList ++ msg.message ++ ['\n']
          else acc))
      []

/-- Rendering of a single history message as described by the spec:
a `"User: …"` line for User-kind, an `"Assistant: …"` line for
Agent-kind, nothing for any other kind. -/
def renderHistoryMsg (msg : ChatMessage) : Str :=
  if msg.kind = ChatMessageKind.user then "User: ".toList ++ msg.message ++ ['\n']
  else if msg.kind = ChatMessageKind.agent then "Assistant: ".toList ++ msg.message ++ ['\n']
  else []

/-- Spec-shaped chat-history text: all messages except the most recent
one, at most the last 4 of those, each rendered by `renderHistoryMsg` and
concatenated; the literal `"No conversational history"` when no prior
message remains. Used to characterise `build_chat_history` at window 4. -/
def chatHistorySpecText (messages : List ChatMessage) : Str :=
  let prior := messages.dropLast
  if prior.length < 1 then "No conversational history".toList
  else ((prior.drop (prior.length - 4)).map renderHistoryMsg).flatten

/-- First-segment query extraction of Controller.parse_response
(controller.py): `response.split("---")[0]` with the `"Subtask 1:"`
labels removed and surrounding whitespace stripped. Total, since segment 0
of a Python split always exists. -/
def extractQuery (s : Str) : Str :=
  stripL (replaceL "Subtask 1: ".toList []
    (replaceL "Subtask 1:".toList [] ((splitOnL "---".toList s).headD [])))

/-- A concrete registered source used in concrete evaluations. -/
def docsChain : Chain := ⟨"docs".toList, "document index".toList⟩

/-- A second concrete registered source used in concrete evaluations. -/
def searchChain : Chain := ⟨"search".toList, "live web search".toList⟩

/-- A concrete successful skill outcome message. -/
def skillOkMsg : ChatMessage := ⟨ChatMessageKind.skill, "good".toList, [], false⟩

/-- A concrete error-flagged skill outcome message. -/
def skillErrMsg : ChatMessage := ⟨ChatMessageKind.skill, "bad".toList, [], true⟩

/-- Outcome map of end-to-end scenario D: one success for `docs`, one
error-flagged outcome for `search`. -/
def scenarioDMap : OutcomeMap :=
  [("docs".toList, [⟨[skillOkMsg]⟩]), ("search".toList, [⟨[skillErrMsg]⟩])]

/-- Outcome map holding only the successful `docs` source. -/
def docsOnlyMap : OutcomeMap := [("docs".toList, [⟨[skillOkMsg]⟩])]

/-- The collected outcome expected from the successful `docs` source. -/
def docsCollected : List ScoredChatMessage :=
  [⟨⟨ChatMessageKind.agent, "good".toList, "docs".toList, false⟩, 1⟩]

/-- Unfolding of a failed containment test at a cons cell: the pattern is
neither a prefix here nor contained further right. -/
theorem containsL_cons_eq_false {pat : Str} {c : Char} {rest : Str}
    (h : containsL pat (c :: rest) = false) :
    isPrefixL pat (c :: rest) = false ∧ containsL pat rest = false := by
  simpa [containsL, Bool.or_eq_false_iff] using h

/-- A split at a separator that does not occur yields the single segment
`acc.reverse ++ s`, at any fuel. -/
theorem splitOnFuel_of_not_contains {sep : Str} (fuel : Nat) :
    ∀ (s acc : Str), containsL sep s = false →
      splitOnFuel sep fuel s acc = [acc.reverse ++ s] := by
  induction fuel with
  | zero =>
    intro s acc _
    cases s <;> simp [splitOnFuel]
  | succ fuel ih =>
    intro s acc h
    cases s with
    | nil => simp [splitOnFuel]
    | cons c rest =>
      obtain ⟨h1, h2⟩ := containsL_cons_eq_false h
      simp [splitOnFuel, h1, ih rest (c :: acc) h2]

/-- Python `s.split(sep)` returns the whole string as its only segment
when the separator does not occur in it. -/
theorem splitOnL_of_not_contains {sep s : Str} (h : containsL sep s = false) :
    splitOnL sep s = [s] := by
  simpa using @splitOnFuel_of_not_contains sep s.length s [] h

/-- Replacement of a pattern that does not occur is the identity, at any fuel. -/
theorem replaceFuel_of_not_contains {pat rep : Str} (fuel : Nat) :
    ∀ s : Str, containsL pat s = false → replaceFuel pat rep fuel s = s := by
  induction fuel with
  | zero =>
    intro s _
    cases s <;> simp [replaceFuel]
  | succ fuel ih =>
    intro s h
    cases s with
    | nil => simp [replaceFuel]
    | cons c rest =>
      obtain ⟨h1, h2⟩ := containsL_cons_eq_false h
      simp [replaceFuel, h1, ih rest h2]

/-- Python `s.replace(pat, rep)` is the identity when the pattern does not
occur in the string. -/
theorem replaceL_of_not_contains {pat rep s : Str} (h : containsL pat s = false) :
    replaceL pat rep s = s :=
  replaceFuel_of_not_contains s.length s h

/-- Extending the pattern cannot turn a failed prefix test into a success. -/
theorem isPrefixL_append_true {p r s : Str} (h : isPrefixL (p ++ r) s = true) :
    isPrefixL p s = true := by
  induction p generalizing s with
  | nil => simp [isPrefixL]
  | cons a p ih =>
    cases s with
    | nil => simp [isPrefixL] at h
    | cons b s =>
      simp only [List.cons_append, isPrefixL, Bool.and_eq_true] at h ⊢
      exact ⟨h.1, ih h.2⟩

/-- Extending the pattern cannot turn a failed containment test into a
success: a string free of `p` is also free of `p ++ r`. -/
theorem containsL_append_eq_false {p r s : Str} (h : containsL p s = false) :
    containsL (p ++ r) s = false := by
  induction s with
  | nil =>
    simp only [containsL] at h ⊢
    cases p with
    | nil => simp [isPrefixL] at h
    | cons a t => simp [isPrefixL]
  | cons c rest ih =>
    obtain ⟨h1, h2⟩ := containsL_cons_eq_false h
    simp only [containsL, Bool.or_eq_false_iff]
    refine ⟨?_, ih h2⟩
    cases hpa : isPrefixL (p ++ r) (c :: rest) with
    | false => rfl
    | true => exact absurd (isPrefixL_append_true hpa) (by simp [h1])

theorem dropWhile_head_false {p : Char → Bool} : ∀ {l : Str} {c : Char},
    (l.dropWhile p).head? = some c → p c = false := by
  intro l
  induction l with
  | nil => intro c h; simp at h
  | cons a t ih =>
    intro c h
    by_cases ha : p a
    · rw [List.dropWhile_cons_of_pos ha] at h
      exact ih h
    · rw [List.dropWhile_cons_of_neg ha] at h
      simp only [List.head?_cons, Option.some.injEq] at h
      subst h
      simpa using ha

theorem dropWhile_idem {p : Char → Bool} : ∀ l : Str,
    (l.dropWhile p).dropWhile p = l.dropWhile p := by
  intro l
  induction l with
  | nil => simp
  | cons a t ih =>
    by_cases ha : p a
    · rw [List.dropWhile_cons_of_pos ha, ih]
    · rw [List.dropWhile_cons_of_neg ha, List.dropWhile_cons_of_neg ha]

theorem dropWhile_suffix_decomp {p : Char → Bool} : ∀ l : Str,
    ∃ t, t ++ l.dropWhile p = l := by
  intro l
  induction l with
  | nil => exact ⟨[], rfl⟩
  | cons a t ih =>
    by_cases ha : p a
    · obtain ⟨u, hu⟩ := ih
      exact ⟨a :: u, by rw [List.dropWhile_cons_of_pos ha, List.cons_append, hu]⟩
    · exact ⟨[], by rw [List.dropWhile_cons_of_neg ha, List.nil_append]⟩

theorem stripL_eq (x : Str) :
    stripL x = ((x.dropWhile Char.isWhitespace).reverse.dropWhile Char.isWhitespace).reverse :=
  rfl

theorem stripL_no_leading_ws {s : Str} {c : Char}
    (h : (stripL s).head? = some c) : c.isWhitespace = false := by
  obtain ⟨t, ht⟩ := @dropWhile_suffix_decomp Char.isWhitespace
    (s.dropWhile Char.isWhitespace).reverse
  rw [stripL_eq] at h
  set B := (s.dropWhile Char.isWhitespace).reverse.dropWhile Char.isWhitespace with hB
  cases hBr : B.reverse with
  | nil => rw [hBr] at h; simp at h
  | cons hd tl =>
    rw [hBr] at h
    simp only [List.head?_cons, Option.some.injEq] at h
    have h2 : B.reverse ++ t.reverse = s.dropWhile Char.isWhitespace := by
      have h3 := congrArg List.reverse ht
      rw [List.reverse_append, List.reverse_reverse] at h3
      exact h3
    rw [hBr] at h2
    have hA : s.dropWhile Char.isWhitespace = hd :: (tl ++ t.reverse) := by
      rw [← h2, List.cons_append]
    have h4 := @dropWhile_head_false Char.isWhitespace s hd
      (by rw [hA]; rfl)
    rw [← h]
    exact h4

theorem dropWhile_of_head_not {p : Char → Bool} {l : Str}
    (h : ∀ c, l.head? = some c → p c = false) : l.dropWhile p = l := by
  cases l with
  | nil => rfl
  | cons a t =>
    have h5 := h a rfl
    rw [List.dropWhile_cons_of_neg (by simp [h5])]

theorem stripL_idem (s : Str) : stripL (stripL s) = stripL s := by
  have h1 : (stripL s).dropWhile Char.isWhitespace = stripL s :=
    dropWhile_of_head_not fun c hc => stripL_no_leading_ws hc
  calc stripL (stripL s)
      = (((stripL s).dropWhile Char.isWhitespace).reverse.dropWhile Char.isWhitespace).reverse :=
        stripL_eq _
    _ = ((stripL s).reverse.dropWhile Char.isWhitespace).reverse := by rw [h1]
    _ = stripL s := by
        rw [stripL_eq s, List.reverse_reverse, dropWhile_idem]

theorem mem_insertDesc {a x : Chain × ℚ} : ∀ {l : List (Chain × ℚ)},
    x ∈ insertDesc a l ↔ x = a ∨ x ∈ l := by
  intro l
  induction l with
  | nil => simp [insertDesc]
  | cons b t ih =>
    by_cases hb : b.2 ≤ a.2
    · simp [insertDesc, hb]
    · simp only [insertDesc, if_neg hb, List.mem_cons, ih]
      tauto

theorem insertDesc_perm (a : Chain × ℚ) : ∀ l : List (Chain × ℚ),
    List.Perm (insertDesc a l) (a :: l) := by
  intro l
  induction l with
  | nil => exact List.Perm.refl _
  | cons b t ih =>
    by_cases hb : b.2 ≤ a.2
    · simp only [insertDesc, if_pos hb]
      exact List.Perm.refl _
    · simp only [insertDesc, if_neg hb]
      exact (ih.cons b).trans (List.Perm.swap a b t)

theorem sortDesc_perm : ∀ l : List (Chain × ℚ), List.Perm (sortDesc l) l := by
  intro l
  induction l with
  | nil => exact List.Perm.refl _
  | cons a t ih =>
    exact (insertDesc_perm a (sortDesc t)).trans (ih.cons a)

theorem insertDesc_pairwise {a : Chain × ℚ} : ∀ {l : List (Chain × ℚ)},
    l.Pairwise (fun x y => y.2 ≤ x.2) →
    (insertDesc a l).Pairwise (fun x y => y.2 ≤ x.2) := by
  intro l
  induction l with
  | nil => intro _; simp [insertDesc]
  | cons b t ih =>
    intro h
    rw [List.pairwise_cons] at h
    obtain ⟨hb, ht⟩ := h
    by_cases hba : b.2 ≤ a.2
    · rw [insertDesc, if_pos hba, List.pairwise_cons]
      refine ⟨?_, by rw [List.pairwise_cons]; exact ⟨hb, ht⟩⟩
      intro y hy
      rcases List.mem_cons.mp hy with rfl | hyt
      · exact hba
      · exact le_trans (hb y hyt) hba
    · rw [insertDesc, if_neg hba, List.pairwise_cons]
      refine ⟨?_, ih ht⟩
      intro y hy
      rcases mem_insertDesc.mp hy with rfl | hyt
      · exact le_of_lt (lt_of_not_le hba)
      · exact hb y hyt

theorem sortDesc_pairwise : ∀ l : List (Chain × ℚ),
    (sortDesc l).Pairwise (fun x y => y.2 ≤ x.2) := by
  intro l
  induction l with
  | nil => simp [sortDesc]
  | cons a t ih => exact insertDesc_pairwise ih

theorem filter_insertDesc {s : ℚ} {a : Chain × ℚ} : ∀ {l : List (Chain × ℚ)},
    l.Pairwise (fun x y => y.2 ≤ x.2) →
    (insertDesc a l).filter (fun p => decide (p.2 = s)) =
      if a.2 = s then a :: l.filter (fun p => decide (p.2 = s))
      else l.filter (fun p => decide (p.2 = s)) := by
  intro l
  induction l with
  | nil =>
    intro _
    by_cases ha : a.2 = s <;> simp [insertDesc, List.filter, ha]
  | cons b t ih =>
    intro h
    rw [List.pairwise_cons] at h
    obtain ⟨hb, ht⟩ := h
    by_cases hba : b.2 ≤ a.2
    · rw [insertDesc, if_pos hba]
      by_cases ha : a.2 = s <;> simp [List.filter_cons, ha]
    · rw [insertDesc, if_neg hba]
      have hlt : a.2 < b.2 := lt_of_not_le hba
      by_cases ha : a.2 = s <;> by_cases hbs : b.2 = s
      · exact absurd (ha.trans hbs.symm) (ne_of_lt hlt)
      · simp [List.filter_cons, hbs, ih ht, ha]
      · simp [List.filter_cons, hbs, ih ht, ha]
      · simp [List.filter_cons, hbs, ih ht, ha]

theorem sortDesc_filter (s : ℚ) : ∀ l : List (Chain × ℚ),
    (sortDesc l).filter (fun p => decide (p.2 = s)) =
      l.filter (fun p => decide (p.2 = s)) := by
  intro l
  induction l with
  | nil => rfl
  | cons a t ih =>
    rw [sortDesc, filter_insertDesc (sortDesc_pairwise t), ih]
    by_cases ha : a.2 = s <;> simp [List.filter_cons, ha]

theorem controllerExecutePlan_eq (chains : List Chain) (th : ℚ) (k b : Nat) (sel q : Str) :
    controllerExecutePlan chains th k b sel q
      = ((sortDesc (filteredEntries chains th sel)).take k).map (mkUnit b q) := by
  unfold controllerExecutePlan
  by_cases h : (filteredEntries chains th sel).isEmpty
  · have h0 : filteredEntries chains th sel = [] := by simpa using h
    simp [h, h0, sortDesc]
  · simp only [h, Bool.false_eq_true, if_false, if_neg]
    rw [List.map_take]

theorem mem_filteredEntries {chains : List Chain} {th : ℚ} {sel : Str} {p : Chain × ℚ} :
    p ∈ filteredEntries chains th sel ↔
      ∃ line ∈ splitlinesL sel, parse_line line chains = some p ∧ th < p.2 := by
  unfold filteredEntries parsedLines
  rw [List.mem_filterMap]
  constructor
  · rintro ⟨o, ho, hgo⟩
    rw [List.mem_map] at ho
    obtain ⟨line, hline, rfl⟩ := ho
    cases hpl : parse_line line chains with
    | none => rw [hpl] at hgo; simp at hgo
    | some p' =>
      rw [hpl] at hgo
      by_cases hth : th < p'.2
      · simp only [hth, if_true, if_pos, Option.some.injEq] at hgo
        subst hgo
        exact ⟨line, hline, hpl, hth⟩
      · simp [hth] at hgo
  · rintro ⟨line, hline, hpl, hth⟩
    refine ⟨parse_line line chains, List.mem_map_of_mem _ hline, ?_⟩
    rw [hpl]
    simp [hth]

/-- C1 (amended): provided the number of entries passing the threshold
filter does not exceed topK, a registered source appears in the execution
plan if and only if some score line parses to that source with a score
strictly greater than the threshold; in particular a score equal to the
threshold never qualifies. The original unconditional per-line claim fails
when more than topK candidates qualify (see the counterexample). -/
theorem claim1_threshold_membership (chains : List Chain) (th : ℚ) (k b : Nat) (sel q : Str)
    (hk : (filteredEntries chains th sel).length ≤ k) (c : Chain) :
    (∃ u ∈ controllerExecutePlan chains th k b sel q, u.chain = c) ↔
      ∃ line ∈ splitlinesL sel, ∃ sc : ℚ, parse_line line chains = some (c, sc) ∧ th < sc := by
  rw [controllerExecutePlan_eq]
  have hlen : (sortDesc (filteredEntries chains th sel)).length
      = (filteredEntries chains th sel).length := (sortDesc_perm _).length_eq
  rw [List.take_of_length_le (by rw [hlen]; exact hk)]
  constructor
  · rintro ⟨u, hu, rfl⟩
    rw [List.mem_map] at hu
    obtain ⟨p, hp, rfl⟩ := hu
    have hpF : p ∈ filteredEntries chains th sel := (sortDesc_perm _).mem_iff.mp hp
    obtain ⟨line, hline, hpl, hth⟩ := mem_filteredEntries.mp hpF
    exact ⟨line, hline, p.2, by simpa [mkUnit] using hpl, hth⟩
  · rintro ⟨line, hline, sc, hpl, hth⟩
    have hpF : (c, sc) ∈ filteredEntries chains th sel :=
      mem_filteredEntries.mpr ⟨line, hline, hpl, hth⟩
    have hpS : (c, sc) ∈ sortDesc (filteredEntries chains th sel) :=
      (sortDesc_perm _).mem_iff.mpr hpF
    exact ⟨mkUnit b q (c, sc), List.mem_map_of_mem _ hpS, rfl⟩

theorem evaluatorExecute_eq_collected : ∀ (m : OutcomeMap) (res : List ScoredChatMessage),
    evaluatorExecute m = some res → res = collectedOutcomes m := by
  intro m
  induction m with
  | nil =>
    intro res h
    simp only [evaluatorExecute, Option.some.injEq] at h
    simp [collectedOutcomes, ← h]
  | cons e rest ih =>
    intro res h
    obtain ⟨name, hist⟩ := e
    rw [evaluatorExecute] at h
    cases hL : hist.getLast? with
    | none => rw [hL] at h; simp at h
    | some entry =>
      rw [hL] at h
      dsimp only at h
      cases hM : entry.messages.getLast? with
      | none => rw [hM] at h; simp at h
      | some msg =>
        rw [hM] at h
        dsimp only at h
        cases hT : evaluatorExecute rest with
        | none => rw [hT] at h; simp at h
        | some tail =>
          rw [hT] at h
          dsimp only at h
          by_cases hc : msg.kind = ChatMessageKind.skill ∧ msg.isError = false
          · rw [if_pos hc] at h
            simp only [Option.some.injEq] at h
            subst h
            simp only [collectedOutcomes, List.filterMap_cons, hL, hM, hc, and_self, if_true]
            rw [ih tail hT]
            rfl
          · rw [if_neg hc] at h
            simp only [Option.some.injEq] at h
            subst h
            simp only [collectedOutcomes, List.filterMap_cons, hL, hM, hc, if_false]
            exact ih tail hT

theorem collectedOutcomes_score_one {m : OutcomeMap} {r : ScoredChatMessage}
    (h : r ∈ collectedOutcomes m) : r.score = 1 ∧ ∃ e ∈ m, r.message.source = e.1 := by
  unfold collectedOutcomes at h
  rw [List.mem_filterMap] at h
  obtain ⟨e, he, hfe⟩ := h
  cases hL : e.2.getLast? with
  | none => rw [hL] at hfe; simp at hfe
  | some entry =>
    rw [hL] at hfe
    dsimp only at hfe
    cases hM : entry.messages.getLast? with
    | none => rw [hM] at hfe; simp at hfe
    | some msg =>
      rw [hM] at hfe
      dsimp only at hfe
      by_cases hc : msg.kind = ChatMessageKind.skill ∧ msg.isError = false
      · rw [if_pos hc] at hfe
        obtain rfl := Option.some.inj hfe
        exact ⟨rfl, e, he, rfl⟩
      · rw [if_neg hc] at hfe
        simp at hfe

theorem collectedOutcomes_includes {m : OutcomeMap} {name : Str}
    {hist : List ChainHistoryEntry} {entry : ChainHistoryEntry} {msg : ChatMessage}
    (hm : (name, hist) ∈ m) (hL : hist.getLast? = some entry)
    (hM : entry.messages.getLast? = some msg)
    (hk : msg.kind = ChatMessageKind.skill) (he : msg.isError = false) :
    (⟨⟨ChatMessageKind.agent, msg.message, name, msg.isError⟩, 1⟩ : ScoredChatMessage)
      ∈ collectedOutcomes m := by
  unfold collectedOutcomes
  rw [List.mem_filterMap]
  refine ⟨(name, hist), hm, ?_⟩
  dsimp only
  rw [hL]
  dsimp only
  rw [hM]
  dsimp only
  rw [if_pos ⟨hk, he⟩]

/-- C10: if the outcome map contains a source whose history sequence is
empty, or whose last history entry has an empty message list, the
collector's `[-1]` indexing is out of bounds and the whole call fails
(returns `none`, modelling the uncaught Python `IndexError`) instead of
skipping that source. -/
theorem claim10_empty_history_aborts {m : OutcomeMap}
    (h : ∃ e ∈ m, e.2.getLast? = none ∨
      ∃ entry, e.2.getLast? = some entry ∧ entry.messages.getLast? = none) :
    evaluatorExecute m = none := by
  induction m with
  | nil => obtain ⟨e, he, _⟩ := h; simp at he
  | cons e rest ih =>
    obtain ⟨e', he', hbad⟩ := h
    obtain ⟨name, hist⟩ := e
    rcases List.mem_cons.mp he' with rfl | hrest
    · rw [evaluatorExecute]
      rcases hbad with hL | ⟨entry, hL, hM⟩
      · rw [hL]
      · rw [hL]
        dsimp only
        rw [hM]
    · have ht : evaluatorExecute rest = none := ih ⟨e', hrest, hbad⟩
      rw [evaluatorExecute]
      cases hL : hist.getLast? with
      | none => rfl
      | some entry =>
        dsimp only
        cases hM : entry.messages.getLast? with
        | none => rfl
        | some msg =>
          dsimp only
          rw [ht]

/-- Folding the history renderer from any initial accumulator appends the
concatenation of the per-message renderings. -/
theorem foldl_render (l : List ChatMessage) : ∀ init : Str,
    l.foldl
      (fun acc msg =>
        if msg.kind = ChatMessageKind.agent then
          (if msg.kind = ChatMessageKind.user then
            acc ++ "User: ".toList ++ msg.message ++ ['\n']
          else acc) ++ "Assistant: ".toList ++ msg.message ++ ['\n']
        else
          (if msg.kind = ChatMessageKind.user then
            acc ++ "User: ".toList ++ msg.message ++ ['\n']
          else acc))
      init = init ++ (l.map renderHistoryMsg).flatten := by
  induction l with
  | nil => intro init; simp
  | cons m t ih =>
    intro init
    rw [List.foldl_cons, ih, List.map_cons, List.flatten_cons]
    cases hk : m.kind <;> simp [renderHistoryMsg, hk, List.append_assoc]

/-- C9: the chat-history text used in the planning prompt is built from
all messages except the most recent one, keeps at most the last 4 of
those, renders User-kind messages as "User: …" lines and Agent-kind
messages as "Assistant: …" lines while skipping every other kind, and is
exactly the literal "No conversational history" when no prior message
remains. -/
theorem claim9_chat_history_spec (messages : List ChatMessage) :
    build_chat_history messages 4 = chatHistorySpecText messages := by
  unfold build_chat_history chatHistorySpecText
  by_cases h : (messages.dropLast).length < 1
  · rw [if_pos h, if_pos h]
  · rw [if_neg h, if_neg h, if_neg (by decide : ¬ (4:Nat) = 0)]
    rw [foldl_render]
    simp

/-- C1 counterexample: with topK = 1 the line `search;7;y` parses to the
registered source `search` with score 7 strictly above the threshold 5,
yet the resulting plan (capped at one unit) contains only `docs` — so a
qualifying source can be absent from the plan. -/
theorem claim1_counterexample :
    parse_line "search;7;y".toList [docsChain, searchChain] = some (searchChain, 7)
    ∧ (5:ℚ) < 7
    ∧ (controllerExecutePlan [docsChain, searchChain] 5 1 0 "docs;8;x\nsearch;7;y".toList
        "q".toList).map ExecutionUnit.chain = [docsChain] := by
  decide

/-- Witness instantiating C1 at a concrete selection where one candidate
passes the filter and topK is 3. -/
theorem claim1_witness :
    ∃ u ∈ controllerExecutePlan [docsChain, searchChain] 5 3 0
        "docs;8;x\nsearch;3;y".toList "q".toList, u.chain = docsChain :=
  (claim1_threshold_membership [docsChain, searchChain] 5 3 0
      "docs;8;x\nsearch;3;y".toList "q".toList (by decide) docsChain).mpr
    ⟨"docs;8;x".toList, by decide, 8, by decide, by decide⟩

/-- C2: for every selection text, threshold, budget and topK, the plan
built by the planning step contains at most topK execution units. -/
theorem claim2_plan_length_le_topK (chains : List Chain) (th : ℚ) (k b : Nat)
    (sel q : Str) : (controllerExecutePlan chains th k b sel q).length ≤ k := by
  rw [controllerExecutePlan_eq, List.length_map, List.length_take]
  exact min_le_left _ _

/-- C3: the plan is the image of the first topK entries of the stable
descending sort of the filtered candidates; that prefix is ordered by
score descending, and the sort preserves, within every class of equal
scores, the original order of the score lines (stability, no secondary
key). -/
theorem claim3_stable_descending (chains : List Chain) (th : ℚ) (k b : Nat)
    (sel q : Str) :
    controllerExecutePlan chains th k b sel q
        = ((sortDesc (filteredEntries chains th sel)).take k).map (mkUnit b q)
    ∧ ((sortDesc (filteredEntries chains th sel)).take k).Pairwise (fun x y => y.2 ≤ x.2)
    ∧ ∀ s : ℚ, (sortDesc (filteredEntries chains th sel)).filter (fun p => decide (p.2 = s))
        = (filteredEntries chains th sel).filter (fun p => decide (p.2 = s)) :=
  ⟨controllerExecutePlan_eq chains th k b sel q,
   List.Pairwise.sublist (List.take_sublist _ _) (sortDesc_pairwise _),
   fun s => sortDesc_filter s _⟩

/-- C4 (amended): for every completion that does not contain the delimiter
literal "---", parse_response fails — Python raises an uncaught IndexError
on `split("---")[1]` — and _execute propagates the failure (`none`); the
planning step does not surface an empty plan. -/
theorem claim4_missing_delimiter_fails (chains : List Chain) (th : ℚ) (k b : Nat)
    (resp : Str) (h : containsL "---".toList resp = false) :
    controllerExecute chains th k b resp = none := by
  unfold controllerExecute parse_response
  rw [splitOnL_of_not_contains h]

/-- C4 counterexample: on the delimiter-free completion "hello" the
planning step yields `none` (an uncaught exception), not the empty plan
the claim promises. -/
theorem claim4_counterexample :
    containsL "---".toList "hello".toList = false
    ∧ controllerExecute [docsChain] 5 3 0 "hello".toList = none
    ∧ controllerExecute [docsChain] 5 3 0 "hello".toList ≠ some [] := by
  decide

/-- Witness instantiating C4 (amended) at a concrete delimiter-free input. -/
theorem claim4_witness :
    controllerExecute [docsChain, searchChain] 5 3 7 "what is up".toList = none :=
  claim4_missing_delimiter_fails [docsChain, searchChain] 5 3 7 "what is up".toList
    (by decide)

/-- C5: for every well-formed two-segment completion in which no score
line survives the threshold filter, the planning step returns the empty
plan and raises no error. -/
theorem claim5_empty_filter_empty_plan (chains : List Chain) (th : ℚ) (k b : Nat)
    (resp q cs : Str) (hp : parse_response resp = some (q, cs))
    (hf : filteredEntries chains th cs = []) :
    controllerExecute chains th k b resp = some [] := by
  unfold controllerExecute
  rw [hp]
  simp [controllerExecutePlan, hf]

/-- Witness instantiating C5 on end-to-end scenario B: the single score
line "unknown" yields the empty plan without error. -/
theorem claim5_witness :
    controllerExecute [docsChain] 5 3 0
      "Subtask 1: q\n---\nSubtask 2:\nunknown".toList = some [] :=
  claim5_empty_filter_empty_plan [docsChain] 5 3 0
    "Subtask 1: q\n---\nSubtask 2:\nunknown".toList "q".toList "unknown".toList
    (by decide) (by decide)

/-- C6 (amended): the collector performs no restriction to the sources
selected in the current planning cycle — whenever a source in the outcome
map (selected or not) has a skill-kind, non-error last message, an entry
attributed to that source appears in the collected outcomes, so results
from an earlier turn do resurface. -/
theorem claim6_collect_ignores_selection (m : OutcomeMap) (res : List ScoredChatMessage)
    (h : evaluatorExecute m = some res) (name : Str) (hist : List ChainHistoryEntry)
    (entry : ChainHistoryEntry) (msg : ChatMessage) (hm : (name, hist) ∈ m)
    (hL : hist.getLast? = some entry) (hM : entry.messages.getLast? = some msg)
    (hk : msg.kind = ChatMessageKind.skill) (he : msg.isError = false) :
    ∃ r ∈ res, r.message.source = name := by
  rw [evaluatorExecute_eq_collected m res h]
  exact ⟨_, collectedOutcomes_includes hm hL hM hk he, rfl⟩

/-- C6 counterexample: the outcome map holds one source, "stale", that was
not selected in the current cycle (the selection is empty), yet the
collector emits its entry — the claimed exclusion does not happen. -/
theorem claim6_counterexample :
    evaluatorExecute [("stale".toList,
        [⟨[⟨ChatMessageKind.skill, "old result".toList, [], false⟩]⟩])]
      = some [⟨⟨ChatMessageKind.agent, "old result".toList, "stale".toList, false⟩, 1⟩]
    ∧ "stale".toList ∉ ([] : List Str) := by
  decide

/-- Witness instantiating C6 (amended) on a concrete one-source map. -/
theorem claim6_witness : ∃ r ∈ docsCollected, r.message.source = "docs".toList :=
  claim6_collect_ignores_selection docsOnlyMap docsCollected (by decide)
    "docs".toList [⟨[skillOkMsg]⟩] ⟨[skillOkMsg]⟩ skillOkMsg
    (by decide) (by decide) (by decide) (by decide) (by decide)

/-- C7: whenever the collector's traversal succeeds, its result is
exactly the per-source filter-map that inspects only the last message of
each source's history and keeps it iff it is skill-kind and not an error;
every emitted entry carries score exactly 1 and the originating source
name. -/
theorem claim7_collector_characterisation (m : OutcomeMap)
    (res : List ScoredChatMessage) (h : evaluatorExecute m = some res) :
    res = collectedOutcomes m ∧ ∀ r ∈ res, r.score = 1 ∧ ∃ e ∈ m, r.message.source = e.1 := by
  have hres := evaluatorExecute_eq_collected m res h
  exact ⟨hres, fun r hr => collectedOutcomes_score_one (hres ▸ hr)⟩

/-- Witness instantiating C7 on end-to-end scenario D: one success
(`docs`, not error) and one failure (`search`, isError = true) — only the
`docs` entry is collected, with score 1 and source `docs`. -/
theorem claim7_witness :
    docsCollected = collectedOutcomes scenarioDMap
    ∧ ∀ r ∈ docsCollected, r.score = 1 ∧ ∃ e ∈ scenarioDMap, r.message.source = e.1 :=
  claim7_collector_characterisation scenarioDMap docsCollected (by decide)

/-- C8 (amended): re-parsing an already-extracted reformulated query fails
outright (the query no longer contains the "---" delimiter, so
parse_response raises), but the first-segment query extraction alone is
idempotent on it, provided the extracted query contains neither the
delimiter "---" nor the label "Subtask 1:" (both can survive extraction
in adversarial completions). -/
theorem claim8_extract_idempotent (resp q cs : Str)
    (hp : parse_response resp = some (q, cs))
    (h1 : containsL "---".toList q = false)
    (h2 : containsL "Subtask 1:".toList q = false) :
    extractQuery q = q := by
  have hq : stripL q = q := by
    unfold parse_response at hp
    cases hsplit : splitOnL "---".toList resp with
    | nil => rw [hsplit] at hp; simp at hp
    | cons seg0 tl =>
      cases tl with
      | nil => rw [hsplit] at hp; simp at hp
      | cons seg1 tl2 =>
        rw [hsplit] at hp
        dsimp only at hp
        have hq0 := congrArg Prod.fst (Option.some.inj hp)
        dsimp only at hq0
        rw [← hq0]
        exact stripL_idem _
  have h2' : containsL "Subtask 1: ".toList q = false := by
    have hx := @containsL_append_eq_false "Subtask 1:".toList [' '] q h2
    have hpat : "Subtask 1:".toList ++ [' '] = "Subtask 1: ".toList := by decide
    rw [hpat] at hx
    exact hx
  unfold extractQuery
  rw [splitOnL_of_not_contains h1]
  simp only [List.headD_cons]
  rw [replaceL_of_not_contains h2, replaceL_of_not_contains h2', hq]

/-- C8 counterexample: the reformulated query extracted from "x---y" is
"x"; feeding "x" back to the parser does not yield the same query — the
parse fails altogether, since "x" has no second segment. -/
theorem claim8_counterexample :
    parse_response "x---y".toList = some ("x".toList, "y".toList)
    ∧ parse_response "x".toList = none := by
  decide

/-- Witness instantiating C8 (amended): the query extracted from a
well-formed completion is a fixed point of the extraction. -/
theorem claim8_witness :
    extractQuery "How old is Sam Altman?".toList = "How old is Sam Altman?".toList :=
  claim8_extract_idempotent
    "Subtask 1: How old is Sam Altman?---Subtask 2:\ndocs;8;ok".toList
    "How old is Sam Altman?".toList "docs;8;ok".toList
    (by decide) (by decide) (by decide)

/-- Witness instantiating C10: a source with an empty history sequence
makes the whole collection call fail. -/
theorem claim10_witness :
    evaluatorExecute [("docs".toList, ([] : List ChainHistoryEntry))] = none :=
  claim10_empty_history_aborts
    ⟨("docs".toList, ([] : List ChainHistoryEntry)), by decide, Or.inl rfl⟩
